import Mathlib

/-!
Shallow embedding of the textforge text-shaping pipeline.

Go strings are modelled as `List Char` (`Str`).  The `process` package
(`ShapeText`, `requestCreateChatCompletion`, `optimizePrompt`,
`optimizeResponseResult`, `findMarkdownFirstCodeBlock`, `NewShapeResult`)
and the status-code classification
(`RequestCreateChatCompletion`) are translated definition by definition.
-/

namespace TextForge

/-- Go strings, modelled as lists of characters. -/
abbrev Str := List Char

/-- The triple-backtick fence delimiter. -/
def ticks3 : Str := "```".toList

/-- Go `strings.Split(s, "\n")`: splits on every newline; the empty string
splits to one empty segment, mirroring Go. -/
def splitLines : Str → List Str
  | [] => [[]]
  | c :: rest =>
      if c = '\n' then [] :: splitLines rest
      else
        match splitLines rest with
        | [] => [[c]]
        | h :: t => (c :: h) :: t

/-- Go `strings.Join(ls, sep)`. -/
def goJoin (sep : Str) : List Str → Str
  | [] => []
  | [x] => x
  | x :: xs => x ++ sep ++ goJoin sep xs

/-- Go `strings.Join(ls, "\n")`. -/
def joinLines : List Str → Str
  | [] => []
  | [x] => x
  | x :: xs => x ++ '\n' :: joinLines xs

/-- The character class `[a-zA-Z0-9]` of the code-block regex (ASCII). -/
def isAlnum (c : Char) : Bool := c.isAlpha || c.isDigit

/-- Matcher for the sub-pattern `(.*?\n)` followed by a closing fence, of the
regex `(?s)` + fence + `[a-zA-Z0-9]*?\n(.*?\n)` + fence used by
`findMarkdownFirstCodeBlock`.  Backtracking semantics of the non-greedy
`.*?` (with `s` flag, dot matches newline): the capture is the shortest
prefix of the text that ends in a newline immediately followed by the
closing triple backtick.  Returns the capture group. -/
def matchBody : Str → Option Str
  | [] => none
  | c :: rest =>
      if c = '\n' && ticks3.isPrefixOf rest then some ['\n']
      else
        match matchBody rest with
        | some cap => some (c :: cap)
        | none => none

/-- Matcher for the sub-pattern `[a-zA-Z0-9]*?\n(.*?\n)` + fence, applied to
the text right after an opening triple backtick.  The language tag
`[a-zA-Z0-9]*?` can only ever consume the maximal alphanumeric run (no
alphanumeric character is a newline), after which a literal newline is
required. -/
def matchAfterTicks : Str → Option Str
  | [] => none
  | c :: rest =>
      if c = '\n' then matchBody rest
      else if isAlnum c then matchAfterTicks rest
      else none

/-- Attempt to match the whole code-block regex at the start of `s`,
returning the capture group on success. -/
def matchFenceAt (s : Str) : Option Str :=
  if ticks3.isPrefixOf s then matchAfterTicks (s.drop 3) else none

/-- Leftmost match of the code-block regex, as the Go function
`regexp.FindStringSubmatch` scans it: try every start position from the
left, first success wins. -/
def reFindFirst : Str → Option Str
  | [] => none
  | c :: rest =>
      match matchFenceAt (c :: rest) with
      | some cap => some cap
      | none => reFindFirst rest

/-- Embedding of `findMarkdownFirstCodeBlock` (process package).  The regex
pattern is a valid constant, so `regexp.Compile` never fails and the error
branch is unreachable; on no match Go returns `("", nil)`. -/
def findMarkdownFirstCodeBlock (text : Str) : Except Unit Str :=
  .ok (match reFindFirst text with
       | some cap => cap
       | none => [])

/-- The enclosing-fence strip stage of `optimizeResponseResult` (source
lines 108-114): when the text starts and ends with a triple backtick and
splits into more than two lines, drop the first and last lines and rejoin. -/
def stripEnclosingFence (result : Str) : Str :=
  if ticks3.isPrefixOf result && ticks3.isSuffixOf result then
    if (splitLines result).length > 2 then
      joinLines ((splitLines result).drop 1).dropLast
    else result
  else result

/-- Embedding of `optimizeResponseResult` (process package): fence strip,
then optional first-code-block extraction; an empty find result means "no
block found" and leaves the working result unchanged. -/
def optimizeResponseResult (rawResult : Str) (useFirstCodeBlock : Bool) :
    Except Unit Str :=
  let result := stripEnclosingFence rawResult
  if useFirstCodeBlock then
    match findMarkdownFirstCodeBlock result with
    | .error e => .error e
    | .ok codeBlock => .ok (if codeBlock ≠ [] then codeBlock else result)
  else .ok result

/-- Modelled from the spec: the message shape `{Role, Content}` of the wire
data model (the Go struct definitions live in a file of the repository that
is not part of the extracted source). -/
structure ChatMessage where
  Role : Str
  Content : Str
deriving DecidableEq

/-- Modelled from the spec: one element of `Choices` —
`{Index, Message:{Role,Content}, FinishReason}`. -/
structure Choice where
  Index : Int
  Message : ChatMessage
  FinishReason : Str
deriving DecidableEq

/-- Modelled from the spec: the success-response shape
`{ID, Object, Created, Model, SystemFingerprint, Choices}`; `Choices` may be
empty (a Go nil slice and an empty slice both model as `[]`). -/
structure ChatCompletion where
  ID : Str
  Object : Str
  Created : Int
  Model : Str
  SystemFingerprint : Str
  Choices : List Choice
deriving DecidableEq

/-- Modelled from the spec: the request shape
`{Model, Messages, MaxTokens: optional, N, Seed, ResponseFormat, Stream}`
(built by the factory `newCreateChatCompletion`, whose Go source is not part
of the extracted files; none of its fields are inspected by the process
package). -/
structure CreateChatCompletion where
  Model : Str
  Messages : List ChatMessage
  MaxTokens : Option Int
  N : Int
  Seed : Int
  ResponseFormat : Str
  Stream : Bool
deriving DecidableEq

/-- The `GenerativeAIClient` interface of the process package, over an
abstract transport-error type `ε`.  `send i cr` is the outcome of the
`(i+1)`-th call to `RequestCreateChatCompletion` in one requester run; the
call index makes it possible to state that at most one transport send is
ever performed. -/
structure GenClient (ε : Type) where
  make : Str → CreateChatCompletion
  send : Nat → CreateChatCompletion → Except ε ChatCompletion

/-- Errors produced by the process package: the wrapped transport error of
`requestCreateChatCompletion` ("failed to send chat message"), and the
wrapped response-optimizer error ("error finding first code block"). -/
inductive ShapeErr (ε : Type) where
  | sendFailed (e : ε)
  | optimizeFailed
deriving DecidableEq

/-- The `ShapeResult` struct of the process package. -/
structure ShapeResult where
  Prompt : Str
  RawResult : Str
  Result : Str
deriving DecidableEq

/-- The trailing-terminator normalization inside `NewShapeResult`: append
one newline when the result does not already end with one. -/
def normalizeTrailing (result : Str) : Str :=
  if ['\n'].isSuffixOf result then result else result ++ ['\n']

/-- Embedding of `NewShapeResult` (process package). -/
def NewShapeResult (prompt rawResult result : Str) : ShapeResult :=
  { Prompt := prompt, RawResult := rawResult,
    Result := normalizeTrailing result }

/-- The `Shaper` struct of the process package. -/
structure Shaper (ε : Type) where
  gai : GenClient ε
  maxCompletionRepeatCount : Int
  useFirstCodeBlock : Bool
  promptOptimize : Bool

/-- The loop body of `requestCreateChatCompletion` (source lines 67-89),
with fuel `maxCount - i`: send, fail on transport error, stop on empty
choices, accumulate the content of the first choice, stop unless the finish
reason is "length". -/
def requestLoop (gai : GenClient ε) (cr : CreateChatCompletion) :
    Nat → Nat → Str → Except (ShapeErr ε) Str
  | 0, _, result => .ok result
  | fuel + 1, callIdx, result =>
      match gai.send callIdx cr with
      | .error e => .error (ShapeErr.sendFailed e)
      | .ok comp =>
          match comp.Choices with
          | [] => .ok result
          | choice :: _ =>
              let result2 := result ++ choice.Message.Content
              if choice.FinishReason = "length".toList then
                requestLoop gai cr fuel (callIdx + 1) result2
              else .ok result2

/-- Embedding of `Shaper.requestCreateChatCompletion`: builds one request
from the prompt, then runs the loop.  The source hardcodes `maxCount := 1`
(the line reading `s.maxCompletionRepeatCount` is commented out), so the
configured repeat count is not consulted. -/
def Shaper.requestCreateChatCompletion (s : Shaper ε) (prompt : Str) :
    Except (ShapeErr ε) Str :=
  let cr := s.gai.make prompt
  let maxCount : Nat := 1
  requestLoop s.gai cr maxCount 0 []

/-- The three supplemental directives of `optimizePrompt`, joined by a
space. -/
def supplementation : Str :=
  goJoin [' ']
    ["The subject of the Instruction is the area enclosed by the ai-text-shaper-input tag.".toList,
     "The result should be returned in the language of the Instruction, but if the Instruction has a language specification, that language should be given priority.".toList,
     "Provide additional explanations or details only if explicitly requested in the Instruction.".toList]

/-- Embedding of `optimizePrompt` (process package): the Sprintf template
wrapping the instruction and input. -/
def optimizePrompt (prompt input : Str) : Str :=
  "<Instruction>".toList ++ prompt ++ ". (".toList ++ supplementation ++
    ")</Instruction>\n<ai-text-shaper-input>".toList ++ input ++
    "</ai-text-shaper-input>".toList

/-- Embedding of `Shaper.ShapeText` (process package): direct mode when the
input is empty and prompt optimization is off, optimized mode otherwise. -/
def Shaper.ShapeText (s : Shaper ε) (promptOrg inputOrg : Str) :
    Except (ShapeErr ε) ShapeResult :=
  if inputOrg = [] ∧ s.promptOptimize = false then
    match s.requestCreateChatCompletion promptOrg with
    | .error e => .error e
    | .ok rawResult => .ok (NewShapeResult promptOrg rawResult rawResult)
  else
    let optimized := optimizePrompt promptOrg inputOrg
    match s.requestCreateChatCompletion optimized with
    | .error e => .error e
    | .ok rawResult =>
        match optimizeResponseResult rawResult s.useFirstCodeBlock with
        | .error _ => .error ShapeErr.optimizeFailed
        | .ok result => .ok (NewShapeResult optimized rawResult result)

/-- JSON values, the already-parsed form of a response body.  The byte-level
parser belongs to the Go encoding/json package; decode failures modelled here are
shape mismatches between the value and the target struct. -/
inductive Json where
  | null
  | bool (b : Bool)
  | num (n : Int)
  | str (s : Str)
  | arr (elems : List Json)
  | obj (fields : List (Str × Json))

/-- Object-field lookup with Go `encoding/json` semantics: with duplicate
keys the last occurrence wins. -/
def lookupField (fields : List (Str × Json)) (key : Str) : Option Json :=
  fields.foldl (fun acc f => if f.1 = key then some f.2 else acc) none

/-- Go unmarshal of a JSON value into a string field: a string decodes to
itself, `null` leaves the zero value, anything else is a decode error. -/
def decodeString : Json → Except Unit Str
  | .str s => .ok s
  | .null => .ok []
  | _ => .error ()

/-- Go unmarshal of a JSON value into an integer field. -/
def decodeInt : Json → Except Unit Int
  | .num n => .ok n
  | .null => .ok 0
  | _ => .error ()

/-- Decode a struct field: a missing key keeps the zero value `zero`. -/
def decodeField (fields : List (Str × Json)) (key : Str)
    (dec : Json → Except Unit α) (zero : α) : Except Unit α :=
  match lookupField fields key with
  | none => .ok zero
  | some j => dec j

/-- Modelled from the spec: the `{Message, ...}` payload inside
`ErrorResponse` (the Go struct definition is not among the extracted
files). -/
structure ErrorDetail where
  Message : Str
deriving DecidableEq

/-- Modelled from the spec: the `ErrorResponse` shape `{Error:{Message}}`. -/
structure ErrorResponse where
  Error : ErrorDetail
deriving DecidableEq

/-- Go unmarshal of an error-body value into `ErrorDetail`. -/
def decodeErrorDetail : Json → Except Unit ErrorDetail
  | .null => .ok ⟨[]⟩
  | .obj fs => do
      let msg ← decodeField fs "message".toList decodeString []
      .ok ⟨msg⟩
  | _ => .error ()

/-- Go unmarshal of an error-body value into `ErrorResponse`. -/
def decodeErrorResponse : Json → Except Unit ErrorResponse
  | .null => .ok ⟨⟨[]⟩⟩
  | .obj fs => do
      let detail ← decodeField fs "error".toList decodeErrorDetail ⟨[]⟩
      .ok ⟨detail⟩
  | _ => .error ()

/-- Go unmarshal of a message value into `ChatMessage`. -/
def decodeChatMessage : Json → Except Unit ChatMessage
  | .null => .ok ⟨[], []⟩
  | .obj fs => do
      let role ← decodeField fs "role".toList decodeString []
      let content ← decodeField fs "content".toList decodeString []
      .ok ⟨role, content⟩
  | _ => .error ()

/-- Go unmarshal of a choice value into `Choice`. -/
def decodeChoice : Json → Except Unit Choice
  | .null => .ok ⟨0, ⟨[], []⟩, []⟩
  | .obj fs => do
      let index ← decodeField fs "index".toList decodeInt 0
      let msg ← decodeField fs "message".toList decodeChatMessage ⟨[], []⟩
      let fin ← decodeField fs "finish_reason".toList decodeString []
      .ok ⟨index, msg, fin⟩
  | _ => .error ()

/-- Go unmarshal of a JSON value into a slice: `null` decodes to the empty
slice, an array decodes elementwise. -/
def decodeList (dec : Json → Except Unit α) : Json → Except Unit (List α)
  | .null => .ok []
  | .arr xs => xs.mapM dec
  | _ => .error ()

/-- Go unmarshal of a success body into `ChatCompletion` (the decode inside
`makeChatCompletions`; its logging does not alter control flow). -/
def decodeChatCompletion : Json → Except Unit ChatCompletion
  | .null => .ok ⟨[], [], 0, [], [], []⟩
  | .obj fs => do
      let id ← decodeField fs "id".toList decodeString []
      let ob ← decodeField fs "object".toList decodeString []
      let created ← decodeField fs "created".toList decodeInt 0
      let model ← decodeField fs "model".toList decodeString []
      let fp ← decodeField fs "system_fingerprint".toList decodeString []
      let choices ← decodeField fs "choices".toList (decodeList decodeChoice) []
      .ok ⟨id, ob, created, model, fp, choices⟩
  | _ => .error ()

/-- The error taxonomy of the openai transport: a decode failure of the
error body ("failed to unmarshal error response"), the unexpected-status
error wrapping `ErrUnexpectedStatusCode` with the code and parsed message,
and a decode failure of the success body ("failed to unmarshal response
body"). -/
inductive OpenAIError where
  | unmarshalErrorResponseFailed
  | unexpectedStatusCode (code : Int) (message : Str)
  | unmarshalResponseBodyFailed
deriving DecidableEq

/-- Embedding of the openai `RequestCreateChatCompletion` classification
(source lines 107-115 of the transport), applied to the status code and the
already-read, already-parsed response body: a code above 299 surfaces the
parsed error message inside the unexpected-status error, a code of at most
299 decodes the success body. -/
def RequestCreateChatCompletion (statusCode : Int) (respBody : Json) :
    Except OpenAIError ChatCompletion :=
  if statusCode > 299 then
    match decodeErrorResponse respBody with
    | .error _ => .error OpenAIError.unmarshalErrorResponseFailed
    | .ok er =>
        .error (OpenAIError.unexpectedStatusCode statusCode er.Error.Message)
  else
    match decodeChatCompletion respBody with
    | .error _ => .error OpenAIError.unmarshalResponseBodyFailed
    | .ok comp => .ok comp

/-- The body of the status-400 example — an object whose "error" field is
an object carrying the message "bad request" — as a parsed JSON value. -/
def badRequestBody : Json :=
  Json.obj [("error".toList,
             Json.obj [("message".toList, Json.str "bad request".toList)])]

/-- A string ends with exactly one line terminator: it ends with a newline
but not with two. -/
def endsWithExactlyOneNL (s : Str) : Bool :=
  ['\n'].isSuffixOf s && !(['\n', '\n'].isSuffixOf s)

/-- Decidable equality for `Except`, used to settle concrete runs of the
pipeline by `decide`. -/
instance {ε α : Type} [DecidableEq ε] [DecidableEq α] :
    DecidableEq (Except ε α) := fun a b =>
  match a, b with
  | .ok x, .ok y => decidable_of_iff (x = y) (by simp)
  | .error x, .error y => decidable_of_iff (x = y) (by simp)
  | .ok _, .error _ => isFalse (by simp)
  | .error _, .ok _ => isFalse (by simp)

/-- A concrete client whose transport always answers with one naturally
finished choice whose content ends in two newlines. -/
def doubleNLClient : GenClient Unit where
  make prompt :=
    { Model := "gpt-4o".toList, Messages := [⟨"user".toList, prompt⟩],
      MaxTokens := none, N := 1, Seed := 0, ResponseFormat := [],
      Stream := false }
  send _ _ :=
    .ok { ID := [], Object := [], Created := 0, Model := [],
          SystemFingerprint := [],
          Choices := [⟨0, ⟨"assistant".toList, "a\n\n".toList⟩,
                      "stop".toList⟩] }

/-- A shaper in direct mode (optimization off) over `doubleNLClient`. -/
def doubleNLShaper : Shaper Unit :=
  { gai := doubleNLClient, maxCompletionRepeatCount := 1,
    useFirstCodeBlock := false, promptOptimize := false }

/-- A concrete client whose transport always answers with an empty choices
list. -/
def emptyChoicesClient : GenClient Unit where
  make prompt :=
    { Model := "gpt-4o".toList, Messages := [⟨"user".toList, prompt⟩],
      MaxTokens := none, N := 1, Seed := 0, ResponseFormat := [],
      Stream := false }
  send _ _ :=
    .ok { ID := [], Object := [], Created := 0, Model := [],
          SystemFingerprint := [], Choices := [] }

/-- A shaper over `emptyChoicesClient` with a repeat count other than one,
to exercise that the configured count is not consulted. -/
def emptyChoicesShaper : Shaper Unit :=
  { gai := emptyChoicesClient, maxCompletionRepeatCount := 5,
    useFirstCodeBlock := true, promptOptimize := true }

theorem splitLines_ne_nil (s : Str) : splitLines s ≠ [] := by
  cases s with
  | nil => simp [splitLines]
  | cons c rest =>
      simp only [splitLines]
      split
      · simp
      · cases hr : splitLines rest <;> simp

theorem joinLines_cons (x y : Str) (ys : List Str) :
    joinLines (x :: y :: ys) = x ++ '\n' :: joinLines (y :: ys) := rfl

theorem joinLines_splitLines (s : Str) : joinLines (splitLines s) = s := by
  induction s with
  | nil => rfl
  | cons c rest ih =>
      by_cases hc : c = '\n'
      · subst hc
        have hsl : splitLines ('\n' :: rest) = [] :: splitLines rest := by
          simp [splitLines]
        cases hr : splitLines rest with
        | nil => exact absurd hr (splitLines_ne_nil rest)
        | cons h t =>
            rw [hr] at ih
            rw [hsl, hr, joinLines_cons]
            simp [ih]
      · simp only [splitLines, if_neg hc]
        cases hr : splitLines rest with
        | nil => exact absurd hr (splitLines_ne_nil rest)
        | cons h t =>
            rw [hr] at ih
            cases t with
            | nil => simpa [joinLines] using ih
            | cons t0 t1 =>
                rw [joinLines_cons] at ih ⊢
                simp [← ih]

theorem splitLines_no_nl (l : Str) (h : ∀ x ∈ l, x ≠ '\n') :
    splitLines l = [l] := by
  induction l with
  | nil => rfl
  | cons c rest ih =>
      have hc : c ≠ '\n' := h c (by simp)
      have hrest : splitLines rest = [rest] := ih fun x hx => h x (by simp [hx])
      simp [splitLines, hc, hrest]

theorem splitLines_append_head (f r : Str) (h : ∀ x ∈ f, x ≠ '\n') :
    splitLines (f ++ '\n' :: r) = f :: splitLines r := by
  induction f with
  | nil => simp [splitLines]
  | cons c f' ih =>
      have hc : c ≠ '\n' := h c (by simp)
      have := ih fun x hx => h x (by simp [hx])
      simp [splitLines, hc, this]

theorem splitLines_append_last (m l : Str) (h : ∀ x ∈ l, x ≠ '\n') :
    splitLines (m ++ '\n' :: l) = splitLines m ++ [l] := by
  induction m with
  | nil => simp [splitLines, splitLines_no_nl l h]
  | cons c m' ih =>
      by_cases hc : c = '\n'
      · subst hc
        simp [splitLines, ih]
      · cases hm : splitLines m' with
        | nil => exact absurd hm (splitLines_ne_nil m')
        | cons h0 t0 =>
            rw [hm] at ih
            simp only [List.cons_append, splitLines, if_neg hc, hm,
              List.append_eq]
            rw [ih]
            rfl

theorem joinLines_concat (xs : List Str) (y : Str) (h : xs ≠ []) :
    joinLines (xs ++ [y]) = joinLines xs ++ '\n' :: y := by
  induction xs with
  | nil => exact absurd rfl h
  | cons x xs' ih =>
      cases xs' with
      | nil => rfl
      | cons x0 xs'' =>
          have := ih (by simp)
          simp only [List.cons_append, joinLines_cons] at this ⊢
          rw [this]
          simp

theorem ticks3_isPrefixOf_append (t : Str) :
    ticks3.isPrefixOf (ticks3 ++ t) = true := by
  simp

theorem matchFenceAt_ticks (t : Str) :
    matchFenceAt (ticks3 ++ t) = matchAfterTicks t := by
  unfold matchFenceAt
  rw [ticks3_isPrefixOf_append]
  simp [ticks3]

theorem matchBody_append (b e : Str) (h : (matchBody b).isSome) :
    (matchBody (b ++ e)).isSome := by
  induction b with
  | nil => simp [matchBody] at h
  | cons c rest ih =>
      simp only [matchBody] at h
      simp only [List.cons_append, List.append_eq, matchBody]
      by_cases h2 : (c = '\n' && ticks3.isPrefixOf (rest ++ e)) = true
      · rw [if_pos h2]
        simp
      · rw [if_neg h2]
        have h1 : (c = '\n' && ticks3.isPrefixOf rest) = false := by
          by_cases hc : c = '\n'
          · by_cases hp : ticks3.isPrefixOf rest = true
            · exfalso
              apply h2
              have hp' : ticks3 <+: rest := by simpa using hp
              have hpe : ticks3 <+: rest ++ e :=
                hp'.trans (List.prefix_append rest e)
              simp [hc, hpe]
            · rw [Bool.not_eq_true] at hp
              simp [hc, hp]
          · simp [hc]
        rw [h1] at h
        simp only [Bool.false_eq_true, if_false] at h
        cases hr : matchBody rest with
        | none => rw [hr] at h; simp at h
        | some cap =>
            have := ih (by rw [hr]; rfl)
            cases hre : matchBody (rest ++ e) with
            | none => rw [hre] at this; simp at this
            | some cap' => simp

theorem matchAfterTicks_append (t e : Str) (h : (matchAfterTicks t).isSome) :
    (matchAfterTicks (t ++ e)).isSome := by
  induction t with
  | nil => simp [matchAfterTicks] at h
  | cons c rest ih =>
      simp only [matchAfterTicks] at h ⊢
      by_cases hc : c = '\n'
      · rw [if_pos hc] at h ⊢
        exact matchBody_append rest e h
      · rw [if_neg hc] at h ⊢
        by_cases ha : isAlnum c = true
        · rw [if_pos ha] at h ⊢
          exact ih h
        · rw [if_neg ha] at h
          simp at h

theorem matchFenceAt_append (s e : Str) (h : (matchFenceAt s).isSome) :
    (matchFenceAt (s ++ e)).isSome := by
  unfold matchFenceAt at h
  by_cases hp : ticks3.isPrefixOf s = true
  · have hp' : ticks3 <+: s := by simpa using hp
    obtain ⟨t, ht⟩ := hp'
    subst ht
    rw [List.append_assoc]
    rw [matchFenceAt_ticks] at *
    rw [if_pos (by simp)] at h
    have hdrop : (ticks3 ++ t).drop 3 = t := by simp [ticks3]
    rw [hdrop] at h
    exact matchAfterTicks_append t e h
  · rw [if_neg hp] at h
    simp at h

theorem reFindFirst_append_right (m e : Str) (h : (reFindFirst m).isSome) :
    (reFindFirst (m ++ e)).isSome := by
  induction m with
  | nil => simp [reFindFirst] at h
  | cons c rest ih =>
      have hgoal : reFindFirst ((c :: rest) ++ e) =
          match matchFenceAt (c :: (rest ++ e)) with
          | some cap => some cap
          | none => reFindFirst (rest ++ e) := rfl
      rw [hgoal]
      cases hm' : matchFenceAt (c :: (rest ++ e)) with
      | some cap' => simp
      | none =>
          have hnone : matchFenceAt (c :: rest) = none := by
            cases hm : matchFenceAt (c :: rest) with
            | none => rfl
            | some cap =>
                have hs := matchFenceAt_append (c :: rest) e (by rw [hm]; rfl)
                rw [List.cons_append, hm'] at hs
                simp at hs
          simp only [reFindFirst, hnone] at h
          exact ih h

theorem reFindFirst_append_left (pre m : Str) (h : (reFindFirst m).isSome) :
    (reFindFirst (pre ++ m)).isSome := by
  induction pre with
  | nil => simpa using h
  | cons p pre' ih =>
      simp only [List.cons_append, reFindFirst]
      cases hm : matchFenceAt (p :: (pre' ++ m)) with
      | none => simpa using ih
      | some cap => simp

theorem matchBody_cap (b cap : Str) (h : matchBody b = some cap) :
    cap ≠ [] ∧ ['\n'] <:+ cap := by
  induction b generalizing cap with
  | nil => simp [matchBody] at h
  | cons c rest ih =>
      simp only [matchBody] at h
      by_cases h1 : (c = '\n' && ticks3.isPrefixOf rest) = true
      · rw [if_pos h1] at h
        obtain rfl : (['\n'] : Str) = cap := by simpa using h
        exact ⟨by simp, List.suffix_refl _⟩
      · rw [if_neg h1] at h
        cases hr : matchBody rest with
        | none => rw [hr] at h; simp at h
        | some cap0 =>
            rw [hr] at h
            obtain rfl : c :: cap0 = cap := by simpa using h
            obtain ⟨hne, hsuf⟩ := ih cap0 hr
            exact ⟨by simp, hsuf.trans (List.suffix_cons c cap0)⟩

theorem matchAfterTicks_cap (t cap : Str) (h : matchAfterTicks t = some cap) :
    cap ≠ [] ∧ ['\n'] <:+ cap := by
  induction t with
  | nil => simp [matchAfterTicks] at h
  | cons c rest ih =>
      simp only [matchAfterTicks] at h
      by_cases hc : c = '\n'
      · rw [if_pos hc] at h
        exact matchBody_cap rest cap h
      · rw [if_neg hc] at h
        by_cases ha : isAlnum c = true
        · rw [if_pos ha] at h
          exact ih h
        · rw [if_neg ha] at h
          simp at h

theorem matchFenceAt_cap (s cap : Str) (h : matchFenceAt s = some cap) :
    cap ≠ [] ∧ ['\n'] <:+ cap := by
  unfold matchFenceAt at h
  by_cases hp : (ticks3.isPrefixOf s) = true
  · rw [if_pos hp] at h
    exact matchAfterTicks_cap _ cap h
  · rw [if_neg hp] at h
    simp at h

theorem reFindFirst_cap (text cap : Str) (h : reFindFirst text = some cap) :
    cap ≠ [] ∧ ['\n'] <:+ cap := by
  induction text with
  | nil => simp [reFindFirst] at h
  | cons c rest ih =>
      simp only [reFindFirst] at h
      cases hm : matchFenceAt (c :: rest) with
      | some cap0 =>
          rw [hm] at h
          obtain rfl : cap0 = cap := by simpa using h
          exact matchFenceAt_cap _ _ hm
      | none =>
          rw [hm] at h
          exact ih h

theorem stripEnclosingFence_eq_of_short (raw : Str)
    (h : (splitLines raw).length ≤ 2) : stripEnclosingFence raw = raw := by
  unfold stripEnclosingFence
  split
  · rw [if_neg (by omega)]
  · rfl

theorem reFindFirst_stripEnclosingFence_none (s : Str)
    (h : reFindFirst s = none) :
    reFindFirst (stripEnclosingFence s) = none := by
  unfold stripEnclosingFence
  split
  · split
    · rename_i hlen
      cases hsl : splitLines s with
      | nil => exact absurd hsl (splitLines_ne_nil s)
      | cons l0 rest =>
          rw [hsl] at hlen
          have hrest : rest ≠ [] := by
            intro hx
            rw [hx] at hlen
            simp at hlen
          have hmidlast : rest.dropLast ++ [rest.getLast hrest] = rest :=
            List.dropLast_append_getLast hrest
          have hlen' : rest.length > 1 := by
            simp only [List.length_cons] at hlen
            omega
          have hmid : rest.dropLast ≠ [] := by
            intro hx
            have hll := congrArg List.length hmidlast
            rw [hx] at hll
            simp at hll
            omega
          -- reconstruct s from its lines
          have hs : s = l0 ++ '\n' :: joinLines rest := by
            conv_lhs => rw [← joinLines_splitLines s]
            rw [hsl]
            cases rest with
            | nil => exact absurd rfl hrest
            | cons r0 rest' => rw [joinLines_cons]
          have hjoin : joinLines rest =
              joinLines rest.dropLast ++ '\n' :: rest.getLast hrest := by
            conv_lhs => rw [← hmidlast]
            exact joinLines_concat _ _ hmid
          by_cases hfind :
              (reFindFirst (joinLines ((l0 :: rest).drop 1).dropLast)).isSome
          · exfalso
            have h1 : (reFindFirst (joinLines rest.dropLast ++
                '\n' :: rest.getLast hrest)).isSome := by
              apply reFindFirst_append_right
              simpa using hfind
            have h2 : (reFindFirst s).isSome := by
              rw [hs, hjoin]
              have h3 := reFindFirst_append_left (l0 ++ ['\n']) _ h1
              simpa using h3
            rw [h] at h2
            simp at h2
          · simpa using hfind
    · exact h
  · exact h

theorem normalizeTrailing_endsWith (s : Str) :
    ['\n'].isSuffixOf (normalizeTrailing s) = true := by
  unfold normalizeTrailing
  by_cases h : ['\n'].isSuffixOf s = true
  · rw [if_pos (by simpa using h)]
    exact h
  · rw [if_neg (by simpa using h)]
    simp

theorem requestCreateChatCompletion_eq (s : Shaper ε) (prompt : Str) :
    s.requestCreateChatCompletion prompt =
      match s.gai.send 0 (s.gai.make prompt) with
      | .error e => .error (ShapeErr.sendFailed e)
      | .ok comp =>
          .ok (match comp.Choices with
               | [] => []
               | choice :: _ => choice.Message.Content) := by
  unfold Shaper.requestCreateChatCompletion
  show requestLoop s.gai (s.gai.make prompt) 1 0 [] = _
  cases hsend : s.gai.send 0 (s.gai.make prompt) with
  | error e => simp [requestLoop, hsend]
  | ok comp =>
      cases hch : comp.Choices with
      | nil => simp [requestLoop, hsend, hch]
      | cons choice rest =>
          by_cases hf : choice.FinishReason = "length".toList
          · simp [requestLoop, hsend, hch, hf]
          · simp [requestLoop, hsend, hch, hf]

theorem shapeText_direct (s : Shaper ε) (hpo : s.promptOptimize = false)
    (prompt : Str) :
    s.ShapeText prompt [] =
      match s.requestCreateChatCompletion prompt with
      | .error e => .error e
      | .ok raw => .ok (NewShapeResult prompt raw raw) := by
  unfold Shaper.ShapeText
  rw [if_pos ⟨rfl, hpo⟩]

theorem shapeText_result_normalized (s : Shaper ε) (promptOrg inputOrg : Str)
    (r : ShapeResult) (h : s.ShapeText promptOrg inputOrg = .ok r) :
    ∃ raw result, r = NewShapeResult r.Prompt raw result := by
  unfold Shaper.ShapeText at h
  by_cases hdm : inputOrg = [] ∧ s.promptOptimize = false
  · rw [if_pos hdm] at h
    cases hreq : s.requestCreateChatCompletion promptOrg with
    | error e => rw [hreq] at h; simp at h
    | ok raw =>
        rw [hreq] at h
        simp only [Except.ok.injEq] at h
        exact ⟨raw, raw, by rw [← h]; rfl⟩
  · rw [if_neg hdm] at h
    dsimp only at h
    cases hreq :
        s.requestCreateChatCompletion (optimizePrompt promptOrg inputOrg) with
    | error e => rw [hreq] at h; simp at h
    | ok raw =>
        rw [hreq] at h
        dsimp only at h
        cases hopt : optimizeResponseResult raw s.useFirstCodeBlock with
        | error e => rw [hopt] at h; simp at h
        | ok result =>
            rw [hopt] at h
            simp only [Except.ok.injEq] at h
            exact ⟨raw, result, by rw [← h]; rfl⟩

/-- C1, counterexample: a full orchestrator run in direct mode whose raw
completion text already ends in two newlines produces a `Result` that still
ends in two newlines, so the `Result` of a `ShapeText` run does not always
end with exactly one trailing line terminator. -/
theorem c1_exactly_one_terminator_counterexample :
    doubleNLShaper.ShapeText "p".toList [] =
      .ok ⟨"p".toList, "a\n\n".toList, "a\n\n".toList⟩ ∧
    endsWithExactlyOneNL "a\n\n".toList = false := by
  constructor
  · decide
  · decide

/-- C1, amended: for every `ShapeResult` returned by `ShapeText`, the
`Result` field ends with at least one trailing line terminator (one is
appended when the computed result lacks one; existing multiple terminators
are preserved, not collapsed, so "exactly one" does not hold in general). -/
theorem c1_result_ends_with_terminator {ε : Type} (s : Shaper ε)
    (promptOrg inputOrg : Str) (r : ShapeResult)
    (h : s.ShapeText promptOrg inputOrg = .ok r) :
    ['\n'].isSuffixOf r.Result = true := by
  obtain ⟨raw, result, hr⟩ :=
    shapeText_result_normalized s promptOrg inputOrg r h
  have h2 := congrArg ShapeResult.Result hr
  rw [h2]
  exact normalizeTrailing_endsWith result

/-- C1, witness: the amended theorem applied to the concrete direct-mode run
of `doubleNLShaper`. -/
theorem c1_result_ends_with_terminator_witness :
    ['\n'].isSuffixOf
      (ShapeResult.mk "p".toList "a\n\n".toList "a\n\n".toList).Result =
      true :=
  c1_result_ends_with_terminator doubleNLShaper "p".toList []
    (ShapeResult.mk "p".toList "a\n\n".toList "a\n\n".toList) (by decide)

/-- C2: `requestCreateChatCompletion` builds exactly one request
(`gai.make prompt`) and its outcome is a function of the first transport
send alone (`gai.send 0`), whatever the configured
`maxCompletionRepeatCount`; only the first choice of the response is used,
and a first choice whose finish reason is "length" is returned as
accumulated content with no continuation send and no error. -/
theorem c2_requester_single_send {ε : Type} (s : Shaper ε) (prompt : Str) :
    (s.requestCreateChatCompletion prompt =
      match s.gai.send 0 (s.gai.make prompt) with
      | .error e => .error (ShapeErr.sendFailed e)
      | .ok comp =>
          .ok (match comp.Choices with
               | [] => []
               | choice :: _ => choice.Message.Content)) ∧
    ∀ (mc : Int) (u po : Bool),
      (Shaper.mk s.gai mc u po).requestCreateChatCompletion prompt =
        s.requestCreateChatCompletion prompt := by
  constructor
  · exact requestCreateChatCompletion_eq s prompt
  · intro mc u po
    rw [requestCreateChatCompletion_eq, requestCreateChatCompletion_eq]

/-- C6: a transport response carrying an empty choices list makes
`requestCreateChatCompletion` stop and return the accumulated content — the
empty string on the first iteration — as a success, not an error. -/
theorem c6_empty_choices_success {ε : Type} (s : Shaper ε) (prompt : Str)
    (comp : ChatCompletion)
    (h1 : s.gai.send 0 (s.gai.make prompt) = .ok comp)
    (h2 : comp.Choices = []) :
    s.requestCreateChatCompletion prompt = .ok [] := by
  rw [requestCreateChatCompletion_eq, h1]
  dsimp only
  rw [h2]

/-- C6, witness: the theorem applied to the concrete client whose transport
always answers with an empty choices list. -/
theorem c6_empty_choices_success_witness :
    emptyChoicesShaper.requestCreateChatCompletion "q".toList = .ok [] :=
  c6_empty_choices_success emptyChoicesShaper "q".toList
    (ChatCompletion.mk [] [] 0 [] [] []) (by decide) (by decide)

/-- C7: in direct mode (empty input, prompt optimization disabled) the
orchestrator sends the original prompt unmodified — the `Prompt` field of the result
is the original prompt and the requester is invoked on that prompt, whose
output is the `RawResult` — and applies no response post-processing:
`Result` is `RawResult` up to the trailing-terminator normalization. -/
theorem c7_direct_mode {ε : Type} (gai : GenClient ε) (mc : Int) (u : Bool)
    (prompt : Str) (r : ShapeResult)
    (h : (Shaper.mk gai mc u false).ShapeText prompt [] = .ok r) :
    r.Prompt = prompt ∧
    (Shaper.mk gai mc u false).requestCreateChatCompletion prompt =
      .ok r.RawResult ∧
    r.Result = normalizeTrailing r.RawResult := by
  rw [shapeText_direct _ rfl] at h
  cases hreq :
      (Shaper.mk gai mc u false).requestCreateChatCompletion prompt with
  | error e => rw [hreq] at h; simp at h
  | ok raw =>
      rw [hreq] at h
      dsimp only at h
      simp only [Except.ok.injEq] at h
      subst h
      exact ⟨rfl, rfl, rfl⟩

/-- C7, witness: the theorem applied to the concrete direct-mode run of
`doubleNLShaper`. -/
theorem c7_direct_mode_witness :
    (ShapeResult.mk "p".toList "a\n\n".toList "a\n\n".toList).Prompt =
      "p".toList ∧
    (Shaper.mk doubleNLClient 1 false false).requestCreateChatCompletion
        "p".toList =
      .ok (ShapeResult.mk "p".toList "a\n\n".toList "a\n\n".toList).RawResult ∧
    (ShapeResult.mk "p".toList "a\n\n".toList "a\n\n".toList).Result =
      normalizeTrailing
        (ShapeResult.mk "p".toList "a\n\n".toList "a\n\n".toList).RawResult :=
  c7_direct_mode doubleNLClient 1 false "p".toList
    (ShapeResult.mk "p".toList "a\n\n".toList "a\n\n".toList) (by decide)

/-- C8: the trailing-terminator normalization performed by `NewShapeResult`
is idempotent, appends exactly one newline when the result lacks one,
leaves an already-terminated result untouched (so existing multiple
terminators are never collapsed). -/
theorem c8_normalization_idempotent (p r s : Str) :
    (NewShapeResult p r s).Result = normalizeTrailing s ∧
    normalizeTrailing (normalizeTrailing s) = normalizeTrailing s ∧
    (['\n'].isSuffixOf s = true → normalizeTrailing s = s) ∧
    (['\n'].isSuffixOf s = false → normalizeTrailing s = s ++ ['\n']) := by
  refine ⟨rfl, ?_, ?_, ?_⟩
  · by_cases h : ['\n'].isSuffixOf s = true
    · simp [normalizeTrailing, h]
    · rw [Bool.not_eq_true] at h
      simp [normalizeTrailing, h]
  · intro h
    simp [normalizeTrailing, h]
  · intro h
    simp [normalizeTrailing, h]

/-- C8, witness: the normalization at concrete inputs, one lacking and one
carrying a trailing newline. -/
theorem c8_normalization_idempotent_witness :
    normalizeTrailing "ab".toList = "ab".toList ++ ['\n'] ∧
    normalizeTrailing "a\n\n".toList = "a\n\n".toList :=
  ⟨(c8_normalization_idempotent [] [] "ab".toList).2.2.2 (by decide),
   (c8_normalization_idempotent [] [] "a\n\n".toList).2.2.1 (by decide)⟩

/-- C3: the transport classifies outcomes by status code — above 299 the
message of the parsed error body is surfaced inside the unexpected-status error
carrying the code (with the concrete 400 / "bad request" instance), a
decode failure of the error body is a distinct error, and at or below 299 a
decode failure of the success body is a third, distinct error. -/
theorem c3_status_code_classification :
    (∀ (code : Int) (body : Json), code > 299 →
       (∀ er, decodeErrorResponse body = .ok er →
          RequestCreateChatCompletion code body =
            .error (OpenAIError.unexpectedStatusCode code er.Error.Message)) ∧
       (∀ e, decodeErrorResponse body = .error e →
          RequestCreateChatCompletion code body =
            .error OpenAIError.unmarshalErrorResponseFailed)) ∧
    (∀ (code : Int) (body : Json) (e : Unit), code ≤ 299 →
       decodeChatCompletion body = .error e →
       RequestCreateChatCompletion code body =
         .error OpenAIError.unmarshalResponseBodyFailed) ∧
    (∀ (code : Int) (msg : Str),
       OpenAIError.unexpectedStatusCode code msg ≠
         OpenAIError.unmarshalErrorResponseFailed ∧
       OpenAIError.unexpectedStatusCode code msg ≠
         OpenAIError.unmarshalResponseBodyFailed) ∧
    OpenAIError.unmarshalErrorResponseFailed ≠
      OpenAIError.unmarshalResponseBodyFailed ∧
    RequestCreateChatCompletion 400 badRequestBody =
      .error (OpenAIError.unexpectedStatusCode 400 "bad request".toList) := by
  refine ⟨?_, ?_, ?_, by simp, by decide⟩
  · intro code body hcode
    constructor
    · intro er her
      unfold RequestCreateChatCompletion
      rw [if_pos hcode, her]
    · intro e he
      unfold RequestCreateChatCompletion
      rw [if_pos hcode, he]
  · intro code body e hcode hdec
    unfold RequestCreateChatCompletion
    rw [if_neg (by omega), hdec]
  · intro code msg
    exact ⟨by simp, by simp⟩

/-- C3, witness: the classification applied at concrete status codes and
bodies — status 300 with a null body (which decodes to the zero
`ErrorResponse`), and status 200 with a body that fails to decode as a
completion. -/
theorem c3_status_code_classification_witness :
    RequestCreateChatCompletion 300 Json.null =
      .error (OpenAIError.unexpectedStatusCode 300 []) ∧
    RequestCreateChatCompletion 200 (Json.str "x".toList) =
      .error OpenAIError.unmarshalResponseBodyFailed :=
  ⟨(c3_status_code_classification.1 300 Json.null (by decide)).1
      (ErrorResponse.mk (ErrorDetail.mk [])) (by decide),
   c3_status_code_classification.2.1 200 (Json.str "x".toList) () (by decide)
      (by decide)⟩

/-- C4, counterexample: with `useFirstCodeBlock` set, a raw input containing
the fenced blocks js-A and py-B (in that order) yields "A" followed by a
newline — not exactly "A", since the regex capture includes the newline
before the closing fence; and an input containing no fenced code block is
not always returned unchanged, because the enclosing-fence strip stage can
still fire. -/
theorem c4_first_code_block_counterexample :
    (optimizeResponseResult "T\n```js\nA\n```\n```py\nB\n```".toList true =
       .ok "A\n".toList ∧
     "A\n".toList ≠ "A".toList) ∧
    (reFindFirst "```\na\nb```".toList = none ∧
     optimizeResponseResult "```\na\nb```".toList true = .ok "a".toList ∧
     "a".toList ≠ "```\na\nb```".toList) := by
  refine ⟨⟨by decide, by decide⟩, by decide, by decide, by decide⟩

/-- C4, amended: with `useFirstCodeBlock` set, the js-A / py-B input yields
the interior of the first block including its trailing newline ("A" + newline);
and for every input in which the code-block regex finds no match, the
extraction stage leaves the working result unchanged — the output equals
the input after the enclosing-fence strip, which is the input itself
whenever the strip guard does not fire. -/
theorem c4_first_code_block_amended :
    optimizeResponseResult "T\n```js\nA\n```\n```py\nB\n```".toList true =
      .ok "A\n".toList ∧
    (∀ input, reFindFirst input = none →
       optimizeResponseResult input true = .ok (stripEnclosingFence input)) ∧
    (∀ input, reFindFirst input = none →
       (ticks3.isPrefixOf input && ticks3.isSuffixOf input) = false →
       optimizeResponseResult input true = .ok input) := by
  have key : ∀ input, reFindFirst input = none →
      optimizeResponseResult input true = .ok (stripEnclosingFence input) := by
    intro input h
    have hs := reFindFirst_stripEnclosingFence_none input h
    simp [optimizeResponseResult, findMarkdownFirstCodeBlock, hs]
  refine ⟨by decide, key, ?_⟩
  intro input h hg
  have h1 : stripEnclosingFence input = input := by
    unfold stripEnclosingFence
    rw [if_neg (by simp [hg])]
  rw [key input h, h1]

/-- C4, witness: the no-block case of the amended theorem applied at a concrete
input without any fence. -/
theorem c4_first_code_block_amended_witness :
    optimizeResponseResult "hello".toList true = .ok "hello".toList :=
  c4_first_code_block_amended.2.2 "hello".toList (by decide) (by decide)

/-- C5: the enclosing-fence strip fires only under the more-than-two-lines
guard — the three-line input with interior "HELLO" is stripped to "HELLO"
(under either flag value), while any raw that starts and ends with a triple
backtick but splits into at most two lines, such as the six-backtick
string, is left unstripped. -/
theorem c5_fence_strip_guard :
    (∀ b, optimizeResponseResult "```\nHELLO\n```".toList b =
       .ok "HELLO".toList) ∧
    (∀ raw, ticks3.isPrefixOf raw = true → ticks3.isSuffixOf raw = true →
       (splitLines raw).length ≤ 2 → stripEnclosingFence raw = raw) ∧
    (∀ b, optimizeResponseResult "``````".toList b = .ok "``````".toList) := by
  refine ⟨?_, ?_, ?_⟩
  · intro b
    cases b <;> decide
  · intro raw h1 h2 h3
    unfold stripEnclosingFence
    rw [if_pos (by simp [h1, h2]), if_neg (by omega)]
  · intro b
    cases b <;> decide

/-- C5, witness: the guard case applied at the six-backtick one-line
input. -/
theorem c5_fence_strip_guard_witness :
    stripEnclosingFence "``````".toList = "``````".toList :=
  c5_fence_strip_guard.2.1 "``````".toList (by decide) (by decide) (by decide)

/-- C9: whenever the code-block regex finds a match, the returned interior
is non-empty and ends with a newline (the capture includes the newline
before the closing fence), and `findMarkdownFirstCodeBlock` returns exactly
that capture; consequently a fence with an empty body is never matched —
concretely, the two-fence-lines-only input produces no match and passes
through `optimizeResponseResult` unchanged. -/
theorem c9_capture_newline_terminated :
    (∀ text cap, reFindFirst text = some cap →
       cap ≠ [] ∧ ['\n'].isSuffixOf cap = true ∧
       findMarkdownFirstCodeBlock text = .ok cap) ∧
    findMarkdownFirstCodeBlock "```\n```".toList = .ok [] ∧
    optimizeResponseResult "```\n```".toList true =
      .ok "```\n```".toList := by
  refine ⟨?_, by decide, by decide⟩
  intro text cap h
  obtain ⟨hne, hsuf⟩ := reFindFirst_cap text cap h
  exact ⟨hne, by simpa using hsuf,
    by simp [findMarkdownFirstCodeBlock, h]⟩

/-- C9, witness: the capture shape at a concrete matching input. -/
theorem c9_capture_newline_terminated_witness :
    "x\n".toList ≠ [] ∧
    ['\n'].isSuffixOf "x\n".toList = true ∧
    findMarkdownFirstCodeBlock "```\nx\n```".toList = .ok "x\n".toList :=
  c9_capture_newline_terminated.1 "```\nx\n```".toList "x\n".toList
    (by decide)

/-- C10: the strip stage triggers for every raw made of a first line that
merely starts with a triple backtick, any middle text, and a last line that
merely ends with a triple backtick, and it removes the first and last lines
wholesale — a language tag on the opening line is discarded, and so is any
content preceding a closing fence that shares its line. -/
theorem c10_strip_removes_whole_lines :
    (∀ f m l : Str, (∀ x ∈ f, x ≠ '\n') → (∀ x ∈ l, x ≠ '\n') →
       ticks3.isPrefixOf f = true → ticks3.isSuffixOf l = true →
       stripEnclosingFence (f ++ '\n' :: (m ++ '\n' :: l)) = m) ∧
    stripEnclosingFence "```js\nA\n```".toList = "A".toList ∧
    stripEnclosingFence "```\nA\nB```".toList = "A".toList := by
  refine ⟨?_, by decide, by decide⟩
  intro f m l hf hl hpf hsl
  have hpre : ticks3.isPrefixOf (f ++ '\n' :: (m ++ '\n' :: l)) = true := by
    have h1 : ticks3 <+: f := by simpa using hpf
    have h2 : f <+: f ++ '\n' :: (m ++ '\n' :: l) := List.prefix_append f _
    simpa using h1.trans h2
  have hsuf : ticks3.isSuffixOf (f ++ '\n' :: (m ++ '\n' :: l)) = true := by
    have h1 : ticks3 <:+ l := by simpa using hsl
    have h2 : l <:+ f ++ '\n' :: (m ++ '\n' :: l) :=
      ⟨f ++ '\n' :: m ++ ['\n'], by simp⟩
    simpa using h1.trans h2
  have hsplit : splitLines (f ++ '\n' :: (m ++ '\n' :: l)) =
      f :: (splitLines m ++ [l]) := by
    rw [splitLines_append_head f _ hf, splitLines_append_last m l hl]
  have hlen : (splitLines m).length > 0 :=
    List.length_pos.mpr (splitLines_ne_nil m)
  unfold stripEnclosingFence
  rw [if_pos (by simp [hpre, hsuf]), hsplit,
    if_pos (by simp only [List.length_cons, List.length_append]; omega)]
  simp only [List.drop_one, List.tail_cons, List.dropLast_concat]
  exact joinLines_splitLines m

/-- C10, witness: the general strip statement applied at a concrete
decomposition with a language tag on the opening line and content glued to
the closing fence. -/
theorem c10_strip_removes_whole_lines_witness :
    stripEnclosingFence
      ("```js".toList ++ '\n' :: ("A".toList ++ '\n' :: "B```".toList)) =
      "A".toList :=
  c10_strip_removes_whole_lines.1 "```js".toList "A".toList "B```".toList
    (by decide) (by decide) (by decide) (by decide)

end TextForge
